import Mathlib

/-!
Verification development for the write-ingestion engine of the
pyneoingest / pyneoinstance library (module `database/neo4jdbms.py`).

The engine is embedded shallowly:

* a pandas `DataFrame` becomes a list of rows, each row a list of cells,
  a cell being `Option String` (`none` models a missing / NaN value);
* `numpy.array_split` becomes `array_split` below, with the documented
  numpy semantics (first `l % n` chunks of size `l / n + 1`, the rest of
  size `l / n`);
* the Neo4j driver stack (`session.execute_write(...).counters.__dict__`)
  is abstracted as an `Oracle`: a function from the issued query, the row
  records passed as the `rows` parameter and the scalar cypher parameters
  to either a counter dictionary or a database-side error
  (`ServiceUnavailable` / `ClientError`);
* driver, session and transaction creation are recorded in an event trace
  so that ordering properties ("the validation happens before any
  connection is opened") are expressible;
* the instance-level accumulator `self.__results` is threaded through the
  entry points as explicit state.

The functions named after the Python source (`_execute_write`,
`execute_write_queries`, `execute_write_queries_with_data`, ...) follow
the `pyneoinstance/database/neo4jdbms.py` variant line by line; the
`pyneoingest/database/neo4jdbms.py` variant is textually identical in
every aspect modelled here (it differs only in logging and in the
deprecated `write_transaction` spelling of `execute_write`).
-/

/-- A cell of the tabular dataset; `none` models a missing (NaN) value. -/
abbrev Cell := Option String

/-- A row of the dataset: an ordered record of cells. -/
abbrev Row := List Cell

/-- The relevant content of a pandas DataFrame: its ordered rows. -/
abbrev DataFrame := List Row

/-- An opaque Cypher query string. -/
abbrev Query := String

/-- Scalar cypher parameters (the `parameters` dictionary). -/
abbrev Params := List (String × String)

/-- A write-outcome counter dictionary, as an insertion-ordered
association list, mirroring a Python `dict`/`defaultdict(int)`. -/
abbrev CounterMap := List (String × Int)

/-- The reserved bookkeeping key of the Neo4j counters object,
excluded from every aggregate (`key != "_contains_updates"`). -/
def containsUpdatesKey : String := "_contains_updates"

/-- Database-side failure kinds surfaced by a write transaction
(`neo4j.exceptions.ServiceUnavailable` and `neo4j.exceptions.ClientError`). -/
inductive DbError where
  | serviceUnavailable
  | clientError
deriving DecidableEq, Repr

/-- Failure kinds an ingestion entry point can raise: the
invalid-partition-count `ValueError`, the `UnboundLocalError` that the
parallel branch hits when the query list is empty (`results` is never
assigned before the merge loop reads it), and a propagated database
error. -/
inductive IngestError where
  | valueError (msg : String)
  | unboundLocalError
  | dbError (e : DbError)
deriving DecidableEq, Repr

/-- Observable resource effects of one invocation, in program order. -/
inductive Event where
  | openDriver
  | openSession
  | runWrite (query : Query) (rows : Option (List Row))
deriving DecidableEq, Repr

/-- The abstracted database: given the query, the optional `rows`
parameter and the scalar parameters, it yields the transaction's counter
dictionary or a database error.  It stands for
`session.execute_write(_write_transaction_function, ...).counters.__dict__`. -/
abbrev Oracle := Query → Option (List Row) → Params → Except DbError CounterMap

/-- Python truthiness of the optional `rows` argument (`if rows:` in
`_execute_write`): `None` and the empty list are falsy. -/
def pyTruthy : Option (List Row) → Bool
  | none => false
  | some rs => !rs.isEmpty

/-- `fillna(value="")` on one cell: a missing value becomes the empty
string, any present value is kept. -/
def fillnaCell (c : Cell) : Cell :=
  some (c.getD "")

/-- `d.fillna(value="").to_dict("records")`: normalize every missing cell
of the batch to the empty string; in this row model `to_dict("records")`
is the identity. -/
def fillnaRecords (rows : List Row) : List Row :=
  rows.map (fun r => r.map fillnaCell)

/-- The chunk sizes `numpy.array_split` uses for a length-`l` input split
into `n` sections: `l % n` sections of size `l / n + 1` followed by
sections of size `l / n`. -/
def splitSizes (l n : Nat) : List Nat :=
  (List.range n).map (fun i => if i < l % n then l / n + 1 else l / n)

/-- Cut a list into consecutive chunks of the given sizes. -/
def takeChunks (data : List Row) : List Nat → List (List Row)
  | [] => []
  | s :: ss => data.take s :: takeChunks (data.drop s) ss

/-- `numpy.array_split(data, n)` for `n ≥ 1`. -/
def array_split (data : DataFrame) (n : Nat) : List (List Row) :=
  takeChunks data (splitSizes data.length n)

/-- `running[key] += value` on a `defaultdict(int)` held as an
association list: the first entry for `key` is bumped, a missing key is
appended with `value` (the `int` default gives it 0 before the add). -/
def updateCounter (m : CounterMap) (k : String) (v : Int) : CounterMap :=
  match m with
  | [] => [(k, v)]
  | (k', v') :: rest =>
      if k' = k then (k', v' + v) :: rest else (k', v') :: updateCounter rest k v

/-- The merge loop shared by `execute_write_queries` (lines 255-257) and
`execute_write_queries_with_data` (lines 367-369):
`for key, value in result.items(): if key != "_contains_updates":
results[key] += value`. -/
def mergeCounters (running delta : CounterMap) : CounterMap :=
  delta.foldl
    (fun acc kv =>
      if kv.1 = containsUpdatesKey then acc else updateCounter acc kv.1 kv.2)
    running

/-- Folding a list of per-transaction counter dictionaries into one
aggregate, starting from the empty accumulator. -/
def aggregateResults (results : List CounterMap) : CounterMap :=
  results.foldl mergeCounters []

/-- Read a counter with `defaultdict(int)` semantics: the first entry for
the key, or 0 when absent. -/
def counterGet (m : CounterMap) (k : String) : Int :=
  match m with
  | [] => 0
  | (k', v) :: rest => if k' = k then v else counterGet rest k

/-- Whether a dictionary has an entry for the key. -/
def hasKeyB (m : CounterMap) (k : String) : Bool :=
  m.any (fun kv => kv.1 = k)

/-- Total contribution of a key in one delta dictionary. -/
def sumAt (d : CounterMap) (k : String) : Int :=
  (d.map (fun kv => if kv.1 = k then kv.2 else 0)).sum

/-- The parameter-normalization idiom `if parameters: params = parameters
else: params = \x7b\x7d` that every entry point repeats: an empty (falsy)
dictionary is replaced by the empty dictionary. -/
def pyParams (parameters : Params) : Params :=
  if parameters.isEmpty then [] else parameters

/-- `_execute_write` (pyneoinstance lines 62-83): normalize the
parameters (`if parameters: ... else: params = \x7b\x7d`), run the write
transaction function on the session, and re-raise `ServiceUnavailable`
and `ClientError` by kind.  `if rows:` uses Python truthiness, so an
empty record list is passed the same way as `None`.  The returned trace
holds the single transaction event. -/
def _execute_write (o : Oracle) (query : Query) (rows : Option (List Row))
    (parameters : Params) : Except IngestError CounterMap × List Event :=
  let params := pyParams parameters
  let rowsArg := if pyTruthy rows then rows else none
  match o query rowsArg params with
  | .ok counters => (.ok counters, [.runWrite query rowsArg])
  | .error e => (.error (.dbError e), [.runWrite query rowsArg])

/-- `_execute_write_parallel` (pyneoinstance lines 85-108): a worker
process opens its own driver and session, then performs the same write
as `_execute_write`. -/
def _execute_write_parallel (o : Oracle) (query : Query)
    (rows : Option (List Row)) (parameters : Params) :
    Except IngestError CounterMap × List Event :=
  let (r, ev) := _execute_write o query rows parameters
  (r, Event.openDriver :: Event.openSession :: ev)

/-- The inner loop of the sequential branch (lines 361-365): apply every
query, in order, to one batch's records; the first database error aborts
the loop and propagates. -/
def runQueriesOnChunk (o : Oracle) (params : Params) (rowsRecords : List Row) :
    List Query → Except IngestError (List CounterMap) × List Event
  | [] => (.ok [], [])
  | q :: qs =>
    let (r, ev) := _execute_write o q (some rowsRecords) params
    match r with
    | .error e => (.error e, ev)
    | .ok c =>
      let (rest, evs) := runQueriesOnChunk o params rowsRecords qs
      match rest with
      | .error e => (.error e, ev ++ evs)
      | .ok cs => (.ok (c :: cs), ev ++ evs)

/-- The sequential branch body (lines 356-365): for each batch, build
`rows_dict` with the `fillna`-normalized records and append one result
per query to `results`; the first error propagates out of the loops. -/
def sequentialChunks (o : Oracle) (queries : List Query) (params : Params) :
    List (List Row) → Except IngestError (List CounterMap) × List Event
  | [] => (.ok [], [])
  | chunk :: rest =>
    let rowsRecords := fillnaRecords chunk
    let (r, ev) := runQueriesOnChunk o params rowsRecords queries
    match r with
    | .error e => (.error e, ev)
    | .ok cs =>
      let (r2, ev2) := sequentialChunks o queries params rest
      match r2 with
      | .error e => (.error e, ev ++ ev2)
      | .ok cs2 => (.ok (cs ++ cs2), ev ++ ev2)

/-- One `worker_pool.starmap` wave (lines 349-354): every batch's worker
runs `_execute_write_parallel` on the `fillna`-normalized records of its
batch; all workers run, and their outcomes are collected in batch
order. -/
def parallelWave (o : Oracle) (query : Query) (params : Params)
    (chunks : List (List Row)) :
    List (Except IngestError CounterMap) × List Event :=
  let outs := chunks.map
    (fun d => _execute_write_parallel o query (some (fillnaRecords d)) params)
  (outs.map Prod.fst, (outs.map Prod.snd).flatten)

/-- `starmap` surfaces the first worker exception to the parent, in task
order, once the wave has run. -/
def collectWave : List (Except IngestError CounterMap) →
    Except IngestError (List CounterMap)
  | [] => .ok []
  | .error e :: _ => .error e
  | .ok c :: rest => (collectWave rest).map (fun cs => c :: cs)

/-- The `for query in queries` loop of the parallel branch (lines
348-354).  The `results` binding is reassigned by every iteration, so the
loop's value is the wave of the *last* query (`none` when the query list
is empty and `results` is never assigned); an exception from a wave
aborts the loop. -/
def parallelQueriesLoop (o : Oracle) (params : Params)
    (chunks : List (List Row)) :
    List Query → Except IngestError (Option (List CounterMap)) × List Event
  | [] => (.ok none, [])
  | q :: qs =>
    let (outs, evs) := parallelWave o q params chunks
    match collectWave outs with
    | .error e => (.error e, evs)
    | .ok cs =>
      let (r, evs2) := parallelQueriesLoop o params chunks qs
      match r with
      | .error e => (.error e, evs ++ evs2)
      | .ok none => (.ok (some cs), evs ++ evs2)
      | .ok (some cs2) => (.ok (some cs2), evs ++ evs2)

/-- `workers_num` (lines 344-347): a configured worker count is used only
when truthy, positive and at most `mp.cpu_count()`; otherwise the count
falls back to `mp.cpu_count()`. -/
def workersNum (workers : Option Int) (cpuCount : Int) : Int :=
  match workers with
  | some w => if w ≠ 0 ∧ w > 0 ∧ w ≤ cpuCount then w else cpuCount
  | none => cpuCount

/-- The execution strategies the spec's orchestrator describes. -/
inductive Strategy where
  | sequential
  | threaded
  | processParallel
deriving DecidableEq, Repr

/-- The strategy actually selected by the `parallel` flag of
`execute_write_queries_with_data` (lines 343 and 355): the method has
exactly one `if parallel: ... else: ...` dispatch and no other
mode-selecting configuration. -/
def selectStrategy (parallel : Bool) : Strategy :=
  if parallel then .processParallel else .sequential

/-- `self.__results = defaultdict(int)` in `Neo4jInstance.__init__`
(line 171): the instance-level accumulator starts empty. -/
def initResultsState : CounterMap := []

/-- `execute_write_queries_with_data` (pyneoinstance lines 292-372).
Inputs: the database oracle, `mp.cpu_count()`, the instance accumulator
`self.__results` before the call, and the method's arguments.  Output:
the call's result (the returned counter dictionary or the raised
exception), the accumulator after the call, and the event trace.
The partition-count `ValueError` is raised first; `np.array_split` also
raises a `ValueError` when the section count is zero.  In the parallel
branch the per-query waves run in order and only the last wave's results
survive; in the sequential branch one driver and one session serve every
batch and query.  The surviving results are merged into
`self.__results`, which is copied for the return value and cleared. -/
def execute_write_queries_with_data (o : Oracle) (cpuCount : Int)
    (st : CounterMap) (queries : List Query) (data : DataFrame)
    (partitions : Nat) (parallel : Bool) (workers : Option Int)
    (parameters : Params) :
    Except IngestError CounterMap × CounterMap × List Event :=
  if partitions > data.length then
    (.error (.valueError
      "The batch size cannot be greater than the number of rows in the data."),
     st, [])
  else if partitions = 0 then
    (.error (.valueError "number sections must be larger than 0."), st, [])
  else
    let data_chunks := array_split data partitions
    let params := pyParams parameters
    if parallel then
      let _ := workersNum workers cpuCount
      match parallelQueriesLoop o params data_chunks queries with
      | (.error e, evs) => (.error e, st, evs)
      | (.ok none, evs) => (.error .unboundLocalError, st, evs)
      | (.ok (some results), evs) =>
        let total := results.foldl mergeCounters st
        (.ok total, [], evs)
    else
      match sequentialChunks o queries params data_chunks with
      | (.error e, evs) => (.error e, st, .openDriver :: .openSession :: evs)
      | (.ok results, evs) =>
        let total := results.foldl mergeCounters st
        (.ok total, [], .openDriver :: .openSession :: evs)

/-- `execute_write_query_with_data` (lines 374-424): normalize the
parameters and delegate to `execute_write_queries_with_data` with the
single-query list. -/
def execute_write_query_with_data (o : Oracle) (cpuCount : Int)
    (st : CounterMap) (query : Query) (data : DataFrame) (partitions : Nat)
    (parallel : Bool) (workers : Option Int) (parameters : Params) :
    Except IngestError CounterMap × CounterMap × List Event :=
  let params := pyParams parameters
  execute_write_queries_with_data o cpuCount st [query] data partitions
    parallel workers params

/-- The query loop of `execute_write_queries` (lines 253-257): run each
query without rows on the shared session and merge its counters into the
local `results` accumulator; the first error propagates. -/
def writeQueriesLoop (o : Oracle) (params : Params) (acc : CounterMap) :
    List Query → Except IngestError CounterMap × List Event
  | [] => (.ok acc, [])
  | q :: qs =>
    let (r, ev) := _execute_write o q none params
    match r with
    | .error e => (.error e, ev)
    | .ok result =>
      let (r2, evs) := writeQueriesLoop o params (mergeCounters acc result) qs
      (r2, ev ++ evs)

/-- `execute_write_queries` (lines 217-258): one driver and one session,
the queries run in order, their counters merged into a fresh local
accumulator that is returned. -/
def execute_write_queries (o : Oracle) (queries : List Query)
    (parameters : Params) : Except IngestError CounterMap × List Event :=
  let params := pyParams parameters
  let (r, evs) := writeQueriesLoop o params [] queries
  (r, Event.openDriver :: Event.openSession :: evs)

/-- `execute_write_query` (lines 260-290): delegate to
`execute_write_queries` with the single-query list. -/
def execute_write_query (o : Oracle) (query : Query) (parameters : Params) :
    Except IngestError CounterMap × List Event :=
  execute_write_queries o [query] parameters

/-- Whether a call result is a normal return. -/
def isOkB {α : Type} : Except IngestError α → Bool
  | .ok _ => true
  | .error _ => false

/-- Whether a returned counter dictionary (if the call returned at all)
contains the reserved bookkeeping key. -/
def okHasReserved : Except IngestError CounterMap → Bool
  | .ok m => hasKeyB m containsUpdatesKey
  | .error _ => false

/-- Whether an event is a write transaction. -/
def isRunWrite : Event → Bool
  | .runWrite _ _ => true
  | _ => false

/-- Number of write transactions in a trace. -/
def countRunWrite (evs : List Event) : Nat :=
  (evs.filter isRunWrite).length

/-- Whether an event's transmitted row batch is free of missing values. -/
def eventRowsFilled : Event → Bool
  | .runWrite _ (some rows) => rows.all (fun r => r.all Option.isSome)
  | _ => true

/-- An oracle whose transactions always succeed with empty counters. -/
def oZero : Oracle := fun _ _ _ => .ok []

/-- A one-row dataset. -/
def dfOne : DataFrame := [[some "a"]]

/-- A five-row dataset used to exercise the partitioner. -/
def df5 : DataFrame :=
  [[some "r1"], [some "r2"], [some "r3"], [some "r4"], [some "r5"]]

/-- An oracle under which the first query creates a node and the second
creates nothing: the two queries have different counter outcomes. -/
def oC1 : Oracle := fun q _ _ =>
  .ok (if q = "q1" then [("nodes_created", 1)] else [])

/-- An oracle whose transactions report one property set (and the
reserved bookkeeping flag, which must never reach the caller). -/
def oC5 : Oracle := fun _ _ _ =>
  .ok [(containsUpdatesKey, 1), ("properties_set", 1)]

/-- An oracle whose every transaction raises a `ClientError`. -/
def oFail : Oracle := fun _ _ _ => .error .clientError

/-- An oracle under which only the second query creates a relationship. -/
def oC10 : Oracle := fun q _ _ =>
  .ok (if q = "q2" then [("relationships_created", 2)] else [("nodes_created", 5)])

/-- Sum of a constant-or-successor indicator over an initial range. -/
theorem sum_range_ite (k m : Nat) :
    ∀ n : Nat,
      ((List.range n).map (fun i => if i < m then k + 1 else k)).sum =
        n * k + min m n
  | 0 => by simp
  | n + 1 => by
    rw [List.range_succ, List.map_append, List.sum_append, sum_range_ite k m n]
    simp only [List.map_cons, List.map_nil, List.sum_cons, List.sum_nil]
    rw [Nat.succ_mul, Nat.min_def, Nat.min_def]
    split_ifs <;> omega

/-- The partitioner always produces the requested number of sizes. -/
theorem splitSizes_length (l n : Nat) : (splitSizes l n).length = n := by
  simp [splitSizes]

/-- For a positive section count the numpy chunk sizes sum to the input
length. -/
theorem splitSizes_sum (l n : Nat) (h : n ≠ 0) : (splitSizes l n).sum = l := by
  unfold splitSizes
  rw [sum_range_ite]
  have h2 : l % n < n := Nat.mod_lt _ (Nat.pos_of_ne_zero h)
  rw [Nat.min_eq_left (le_of_lt h2)]
  exact Nat.div_add_mod l n

/-- Every numpy chunk size is the floor quotient or its successor. -/
theorem mem_splitSizes (l n x : Nat) (hx : x ∈ splitSizes l n) :
    x = l / n ∨ x = l / n + 1 := by
  simp only [splitSizes, List.mem_map, List.mem_range] at hx
  obtain ⟨i, _, hi⟩ := hx
  split at hi <;> omega

/-- Cutting by a size list yields one chunk per size. -/
theorem takeChunks_length (data : List Row) (ss : List Nat) :
    (takeChunks data ss).length = ss.length := by
  induction ss generalizing data with
  | nil => simp [takeChunks]
  | cons s ss ih => simp [takeChunks, ih]

/-- When the sizes sum to the input length, concatenating the chunks
recovers the input exactly. -/
theorem takeChunks_flatten (ss : List Nat) :
    ∀ data : List Row, ss.sum = data.length →
      (takeChunks data ss).flatten = data := by
  induction ss with
  | nil =>
    intro data h
    simp only [takeChunks, List.flatten_nil]
    exact (List.eq_nil_of_length_eq_zero h.symm).symm
  | cons s ss ih =>
    intro data h
    simp only [takeChunks, List.flatten_cons]
    rw [ih (data.drop s) (by simp [List.length_drop]; simp at h; omega)]
    exact List.take_append_drop s data

/-- When the sizes sum to the input length, the chunk lengths are the
requested sizes. -/
theorem takeChunks_map_length (ss : List Nat) :
    ∀ data : List Row, ss.sum = data.length →
      (takeChunks data ss).map List.length = ss := by
  induction ss with
  | nil => intro data _; simp [takeChunks]
  | cons s ss ih =>
    intro data h
    simp only [takeChunks, List.map_cons]
    simp only [List.sum_cons] at h
    rw [List.length_take, Nat.min_eq_left (by omega),
      ih (data.drop s) (by simp [List.length_drop]; omega)]

/-- C3: for every DataFrame with R rows and every partition count N with
1 <= N <= R, `np.array_split` produces exactly N batches whose sizes sum
to R, any two batch sizes differ by at most 1, and concatenating the
batches in order gives back exactly the input rows (no row duplicated or
dropped, order preserved). -/
theorem C3_partition_shape (data : DataFrame) (n : Nat)
    (h1 : 1 ≤ n) (h2 : n ≤ data.length) :
    (array_split data n).length = n ∧
    ((array_split data n).map List.length).sum = data.length ∧
    (∀ a ∈ (array_split data n).map List.length,
      ∀ b ∈ (array_split data n).map List.length, a ≤ b + 1) ∧
    (array_split data n).flatten = data := by
  have hn0 : n ≠ 0 := by omega
  have hsum : (splitSizes data.length n).sum = data.length :=
    splitSizes_sum _ _ hn0
  refine ⟨?_, ?_, ?_, ?_⟩
  · rw [array_split, takeChunks_length, splitSizes_length]
  · rw [array_split, takeChunks_map_length _ _ hsum, hsum]
  · intro a ha b hb
    rw [array_split, takeChunks_map_length _ _ hsum] at ha hb
    rcases mem_splitSizes _ _ _ ha with h | h <;>
      rcases mem_splitSizes _ _ _ hb with h' | h' <;> omega
  · exact takeChunks_flatten _ _ hsum

/-- C3 witness: splitting the concrete five-row dataset into three
batches. -/
theorem C3_partition_shape_witness :
    (array_split df5 3).length = 3 ∧ (array_split df5 3).flatten = df5 :=
  ⟨(C3_partition_shape df5 3 (by decide) (by decide)).1,
   (C3_partition_shape df5 3 (by decide) (by decide)).2.2.2⟩

/-- Bumping a key adds to its defaultdict reading. -/
theorem counterGet_updateCounter_same (m : CounterMap) (k : String) (v : Int) :
    counterGet (updateCounter m k v) k = counterGet m k + v := by
  induction m with
  | nil => simp [updateCounter, counterGet]
  | cons kv rest ih =>
    obtain ⟨k', v'⟩ := kv
    by_cases h : k' = k
    · subst h
      simp [updateCounter, counterGet]
    · simp [updateCounter, counterGet, h, ih]

/-- Bumping a key leaves every other key's reading unchanged. -/
theorem counterGet_updateCounter_other (m : CounterMap) (k k' : String)
    (v : Int) (h : k' ≠ k) :
    counterGet (updateCounter m k v) k' = counterGet m k' := by
  have hne : k ≠ k' := fun hc => h hc.symm
  induction m with
  | nil => simp [updateCounter, counterGet, hne]
  | cons kv rest ih =>
    obtain ⟨k'', v''⟩ := kv
    by_cases hk : k'' = k
    · subst hk
      simp [updateCounter, counterGet, hne]
    · simp [updateCounter, counterGet, hk, ih]

/-- One merge step, unfolded. -/
theorem mergeCounters_cons (r : CounterMap) (kv : String × Int)
    (d : CounterMap) :
    mergeCounters r (kv :: d) =
      mergeCounters
        (if kv.1 = containsUpdatesKey then r else updateCounter r kv.1 kv.2)
        d := by
  simp [mergeCounters]

/-- Merging adds, for every non-reserved key, exactly the delta's total
contribution for that key to the running defaultdict reading. -/
theorem counterGet_mergeCounters (d : CounterMap) (k : String)
    (hk : k ≠ containsUpdatesKey) :
    ∀ r : CounterMap,
      counterGet (mergeCounters r d) k = counterGet r k + sumAt d k := by
  induction d with
  | nil => intro r; simp [mergeCounters, sumAt]
  | cons kv d ih =>
    intro r
    rw [mergeCounters_cons]
    by_cases h : kv.1 = containsUpdatesKey
    · rw [if_pos h, ih]
      have hne : kv.1 ≠ k := fun hc => hk (hc ▸ h)
      simp [sumAt, hne]
    · rw [if_neg h, ih]
      by_cases h2 : kv.1 = k
      · subst h2
        rw [counterGet_updateCounter_same]
        simp [sumAt]
        ring
      · rw [counterGet_updateCounter_other _ _ _ _ (fun hc => h2 hc.symm)]
        simp [sumAt, h2]

/-- The reserved bookkeeping key's reading is never touched by a merge. -/
theorem counterGet_mergeCounters_reserved (d : CounterMap) :
    ∀ r : CounterMap,
      counterGet (mergeCounters r d) containsUpdatesKey =
        counterGet r containsUpdatesKey := by
  induction d with
  | nil => intro r; simp [mergeCounters]
  | cons kv d ih =>
    intro r
    rw [mergeCounters_cons]
    by_cases h : kv.1 = containsUpdatesKey
    · rw [if_pos h, ih]
    · rw [if_neg h, ih,
        counterGet_updateCounter_other _ _ _ _ (fun hc => h hc.symm)]

/-- A delta whose every value is zero contributes zero at every key. -/
theorem sumAt_zero (d : CounterMap) (hz : ∀ kv ∈ d, kv.2 = 0) (k : String) :
    sumAt d k = 0 := by
  induction d with
  | nil => simp [sumAt]
  | cons kv d ih =>
    have h0 : kv.2 = 0 := hz kv (by simp)
    have ih' := ih (fun kv' h' => hz kv' (by simp [h']))
    simp only [sumAt, List.map_cons, List.sum_cons] at *
    rw [ih']
    by_cases h : kv.1 = k <;> simp [h, h0]

/-- Folding merges over a result list sums the per-result contributions. -/
theorem counterGet_foldl_merge (results : List CounterMap) (k : String)
    (hk : k ≠ containsUpdatesKey) :
    ∀ r : CounterMap,
      counterGet (results.foldl mergeCounters r) k =
        counterGet r k + (results.map (fun d => sumAt d k)).sum := by
  induction results with
  | nil => intro r; simp
  | cons d results ih =>
    intro r
    simp only [List.foldl_cons, List.map_cons, List.sum_cons]
    rw [ih, counterGet_mergeCounters _ _ hk]
    ring

/-- C4: the aggregate maps every key other than the reserved
contains-updates flag to the sum of that key's values across all merged
per-transaction dictionaries (an absent key reads as zero under the
defaultdict semantics), and merging an all-zero delta leaves every
reading of the running total unchanged. -/
theorem C4_counter_merge (results : List CounterMap) (k : String)
    (hk : k ≠ containsUpdatesKey) :
    counterGet (aggregateResults results) k =
      (results.map (fun d => sumAt d k)).sum ∧
    ∀ (r d : CounterMap), (∀ kv ∈ d, kv.2 = 0) →
      ∀ k', counterGet (mergeCounters r d) k' = counterGet r k' := by
  constructor
  · rw [aggregateResults, counterGet_foldl_merge _ _ hk]
    simp [counterGet]
  · intro r d hz k'
    by_cases h : k' = containsUpdatesKey
    · subst h
      exact counterGet_mergeCounters_reserved d r
    · rw [counterGet_mergeCounters _ _ h, sumAt_zero d hz]
      ring

/-- C4 witness: concrete aggregation of two counter dictionaries, and a
zero-delta merge into a concrete running total. -/
theorem C4_counter_merge_witness :
    counterGet
      (aggregateResults
        [[("nodes_created", 2), (containsUpdatesKey, 1)],
         [("nodes_created", 3), ("labels_added", 1)]]) "nodes_created" = 5 ∧
    counterGet
      (mergeCounters [("nodes_created", 2)] [("properties_set", 0)])
      "nodes_created" =
      counterGet [("nodes_created", 2)] "nodes_created" :=
  ⟨(C4_counter_merge
      [[("nodes_created", 2), (containsUpdatesKey, 1)],
       [("nodes_created", 3), ("labels_added", 1)]] "nodes_created"
      (by decide)).1.trans (by decide),
   (C4_counter_merge [] "nodes_created" (by decide)).2
      [("nodes_created", 2)] [("properties_set", 0)] (by decide)
      "nodes_created"⟩

/-- Bumping one key cannot create an entry for a different key. -/
theorem hasKeyB_updateCounter (m : CounterMap) (k k' : String) (v : Int)
    (h : k ≠ k') :
    hasKeyB (updateCounter m k v) k' = hasKeyB m k' := by
  induction m with
  | nil => simp [updateCounter, hasKeyB, h]
  | cons kv rest ih =>
    obtain ⟨k'', v''⟩ := kv
    by_cases hk : k'' = k
    · subst hk
      simp [updateCounter, hasKeyB]
    · simp only [hasKeyB] at ih
      simp only [updateCounter, if_neg hk, hasKeyB, List.any_cons, ih]

/-- The merge loop never creates an entry for the reserved key. -/
theorem hasKeyB_mergeCounters_reserved (d : CounterMap) :
    ∀ r : CounterMap,
      hasKeyB (mergeCounters r d) containsUpdatesKey =
        hasKeyB r containsUpdatesKey := by
  induction d with
  | nil => intro r; simp [mergeCounters]
  | cons kv d ih =>
    intro r
    rw [mergeCounters_cons]
    by_cases h : kv.1 = containsUpdatesKey
    · rw [if_pos h, ih]
    · rw [if_neg h, ih, hasKeyB_updateCounter _ _ _ _ h]

/-- Folding merges never creates an entry for the reserved key. -/
theorem hasKeyB_foldl_reserved (results : List CounterMap) :
    ∀ r : CounterMap,
      hasKeyB (results.foldl mergeCounters r) containsUpdatesKey =
        hasKeyB r containsUpdatesKey := by
  induction results with
  | nil => intro r; rfl
  | cons d results ih =>
    intro r
    rw [List.foldl_cons, ih, hasKeyB_mergeCounters_reserved]

/-- The query loop of `execute_write_queries` keeps its accumulator free
of the reserved key. -/
theorem writeQueriesLoop_okHasReserved (o : Oracle) (params : Params) :
    ∀ (qs : List Query) (acc : CounterMap),
      hasKeyB acc containsUpdatesKey = false →
      okHasReserved (writeQueriesLoop o params acc qs).1 = false := by
  intro qs
  induction qs with
  | nil => intro acc hacc; simpa [writeQueriesLoop, okHasReserved] using hacc
  | cons q qs ih =>
    intro acc hacc
    simp only [writeQueriesLoop]
    rcases h : (_execute_write o q none params).1 with e | result
    · simp [okHasReserved]
    · have : hasKeyB (mergeCounters acc result) containsUpdatesKey = false := by
        rw [hasKeyB_mergeCounters_reserved, hacc]
      simpa using ih (mergeCounters acc result) this

/-- `execute_write_queries` never returns the reserved key. -/
theorem queries_okHasReserved (o : Oracle) (qs : List Query) (p : Params) :
    okHasReserved (execute_write_queries o qs p).1 = false := by
  have h := writeQueriesLoop_okHasReserved o
    (pyParams p) qs [] rfl
  simp only [execute_write_queries]
  rcases hw : writeQueriesLoop o (pyParams p) [] qs
    with ⟨r, evs⟩
  rw [hw] at h
  simpa using h

/-- `execute_write_queries_with_data` started on the empty accumulator
never returns the reserved key. -/
theorem withdata_okHasReserved (o : Oracle) (cpu : Int) (qs : List Query)
    (data : DataFrame) (n : Nat) (par : Bool) (w : Option Int) (p : Params) :
    okHasReserved
      (execute_write_queries_with_data o cpu [] qs data n par w p).1 =
      false := by
  simp only [execute_write_queries_with_data]
  split
  · rfl
  split
  · rfl
  split
  · rcases hq : parallelQueriesLoop o
        (pyParams p) (array_split data n) qs
      with ⟨r, evs⟩
    rcases r with e | cs
    · simp [okHasReserved]
    · rcases cs with _ | results
      · simp [okHasReserved]
      · simp only [okHasReserved]
        rw [hasKeyB_foldl_reserved]
        rfl
  · rcases hs : sequentialChunks o qs
        (pyParams p) (array_split data n)
      with ⟨r, evs⟩
    rcases r with e | results
    · simp [okHasReserved]
    · simp only [okHasReserved]
      rw [hasKeyB_foldl_reserved]
      rfl

/-- C5: none of the four write entry points ever returns a counter
dictionary containing the reserved contains-updates key, whatever the
per-transaction counter dictionaries contain (the instance accumulator
is the empty one every fresh instance starts with). -/
theorem C5_reserved_key_excluded (o : Oracle) (cpu : Int) (qs : List Query)
    (q : Query) (data : DataFrame) (n : Nat) (par : Bool) (w : Option Int)
    (p : Params) :
    okHasReserved (execute_write_queries o qs p).1 = false ∧
    okHasReserved (execute_write_query o q p).1 = false ∧
    okHasReserved
      (execute_write_queries_with_data o cpu initResultsState qs data n par
        w p).1 = false ∧
    okHasReserved
      (execute_write_query_with_data o cpu initResultsState q data n par
        w p).1 = false := by
  refine ⟨queries_okHasReserved o qs p, queries_okHasReserved o [q] p,
    withdata_okHasReserved o cpu qs data n par w p, ?_⟩
  simp only [execute_write_query_with_data]
  exact withdata_okHasReserved o cpu [q] data n par w
    (pyParams p)

/-- C2: whenever the partition count exceeds the row count,
`execute_write_queries_with_data` raises the invalid-partition-count
`ValueError` with an empty event trace — no driver connection, session
or transaction is created, no query is issued, and the instance
accumulator is left untouched. -/
theorem C2_invalid_partition_check (o : Oracle) (cpu : Int) (st : CounterMap)
    (qs : List Query) (data : DataFrame) (n : Nat) (par : Bool)
    (w : Option Int) (p : Params) (h : data.length < n) :
    execute_write_queries_with_data o cpu st qs data n par w p =
      (.error (.valueError
        "The batch size cannot be greater than the number of rows in the data."),
       st, []) := by
  simp [execute_write_queries_with_data, h]

/-- C2 witness: two partitions requested on a one-row dataset. -/
theorem C2_invalid_partition_check_witness :
    execute_write_queries_with_data oZero 1 [] ["q"] dfOne 2 false none [] =
      (.error (.valueError
        "The batch size cannot be greater than the number of rows in the data."),
       [], []) :=
  C2_invalid_partition_check oZero 1 [] ["q"] dfOne 2 false none []
    (by decide)

/-- A completed call leaves the instance accumulator empty. -/
theorem withdata_state_after (o : Oracle) (cpu : Int) (st : CounterMap)
    (qs : List Query) (data : DataFrame) (n : Nat) (par : Bool)
    (w : Option Int) (p : Params)
    (h : isOkB
      (execute_write_queries_with_data o cpu st qs data n par w p).1 = true) :
    (execute_write_queries_with_data o cpu st qs data n par w p).2.1 = [] := by
  by_cases h1 : data.length < n
  · simp [execute_write_queries_with_data, h1, isOkB] at h
  · by_cases h2 : n = 0
    · simp [execute_write_queries_with_data, h1, h2, isOkB] at h
    · cases par with
      | true =>
        rcases hq : parallelQueriesLoop o (pyParams p)
            (array_split data n) qs with ⟨r, evs⟩
        rcases r with e | cs
        · simp [execute_write_queries_with_data, h1, h2, hq, isOkB] at h
        · rcases cs with _ | results
          · simp [execute_write_queries_with_data, h1, h2, hq, isOkB] at h
          · simp [execute_write_queries_with_data, h1, h2, hq]
      | false =>
        rcases hs : sequentialChunks o qs (pyParams p)
            (array_split data n) with ⟨r, evs⟩
        rcases r with e | results
        · simp [execute_write_queries_with_data, h1, h2, hs, isOkB] at h
        · simp [execute_write_queries_with_data, h1, h2, hs]

/-- C6: the instance accumulator is empty at construction and empty
again after every completed call to `execute_write_queries_with_data`,
so a second invocation on the same instance starts from the empty
accumulator and its result is exactly the result of the same invocation
on a fresh instance — no counts carry over. -/
theorem C6_accumulator_reset (o : Oracle) (cpu : Int) (st : CounterMap)
    (qs : List Query) (data : DataFrame) (n : Nat) (par : Bool)
    (w : Option Int) (p : Params) (o2 : Oracle) (cpu2 : Int)
    (qs2 : List Query) (data2 : DataFrame) (n2 : Nat) (par2 : Bool)
    (w2 : Option Int) (p2 : Params)
    (h : isOkB
      (execute_write_queries_with_data o cpu st qs data n par w p).1 = true) :
    initResultsState = ([] : CounterMap) ∧
    (execute_write_queries_with_data o cpu st qs data n par w p).2.1 = [] ∧
    execute_write_queries_with_data o2 cpu2
        (execute_write_queries_with_data o cpu st qs data n par w p).2.1
        qs2 data2 n2 par2 w2 p2 =
      execute_write_queries_with_data o2 cpu2 initResultsState qs2 data2 n2
        par2 w2 p2 := by
  have hstate := withdata_state_after o cpu st qs data n par w p h
  exact ⟨rfl, hstate, by rw [hstate]; rfl⟩

/-- C6 witness: a completed sequential call started on a dirty
accumulator still leaves the accumulator empty. -/
theorem C6_accumulator_reset_witness :
    (execute_write_queries_with_data oZero 1 [("nodes_created", 7)] ["q"]
      dfOne 1 false none []).2.1 = [] :=
  (C6_accumulator_reset oZero 1 [("nodes_created", 7)] ["q"] dfOne 1 false
    none [] oZero 1 ["q"] dfOne 1 false none [] (by decide)).2.1

/-- A parallel worker returns the same transaction outcome as the shared
session path; only its resource events differ. -/
theorem fst_execute_write_parallel (o : Oracle) (q : Query)
    (rows : Option (List Row)) (p : Params) :
    (_execute_write_parallel o q rows p).1 = (_execute_write o q rows p).1 := by
  rcases h : _execute_write o q rows p with ⟨r, ev⟩
  simp [_execute_write_parallel, h]

/-- The outcomes of one parallel wave, batch by batch. -/
theorem parallelWave_fst (o : Oracle) (q : Query) (params : Params)
    (chunks : List (List Row)) :
    (parallelWave o q params chunks).1 =
      chunks.map
        (fun d => (_execute_write o q (some (fillnaRecords d)) params).1) := by
  simp [parallelWave, fst_execute_write_parallel, Function.comp]

/-- With a single query the sequential branch produces exactly the
collected outcomes of the corresponding parallel wave. -/
theorem seq_single (o : Oracle) (q : Query) (params : Params) :
    ∀ chunks : List (List Row),
      (sequentialChunks o [q] params chunks).1 =
        collectWave (chunks.map
          (fun d => (_execute_write o q (some (fillnaRecords d)) params).1)) := by
  intro chunks
  induction chunks with
  | nil => rfl
  | cons chunk rest ih =>
    rcases hx : _execute_write o q (some (fillnaRecords chunk)) params
      with ⟨r, ev⟩
    rcases r with e | c
    · simp [sequentialChunks, runQueriesOnChunk, hx, collectWave]
    · rcases hrest : sequentialChunks o [q] params rest with ⟨r2, ev2⟩
      rw [hrest] at ih
      rcases r2 with e2 | cs2 <;>
        simp [sequentialChunks, runQueriesOnChunk, hx, hrest, collectWave,
          Except.map, ← ih]

/-- The per-query loop of the parallel branch, specialized to one query:
its value is that query's collected wave. -/
theorem parallelQueriesLoop_single (o : Oracle) (q : Query) (params : Params)
    (chunks : List (List Row)) :
    (parallelQueriesLoop o params chunks [q]).1 =
      match collectWave ((parallelWave o q params chunks).1) with
      | .error e => .error e
      | .ok cs => .ok (some cs) := by
  rcases hw : parallelWave o q params chunks with ⟨outs, evs⟩
  rcases hc : collectWave outs with e | cs <;>
    simp [parallelQueriesLoop, hw, hc]

/-- C1 as amended: for a single write statement, running
`execute_write_queries_with_data` with `parallel=True` and with
`parallel=False` over the same dataset returns the same value (the same
aggregate counter dictionary, or the same propagated error). -/
theorem C1_mode_equivalence_amended (o : Oracle) (cpu : Int)
    (st : CounterMap) (q : Query) (data : DataFrame) (n : Nat)
    (w w' : Option Int) (p : Params) :
    (execute_write_queries_with_data o cpu st [q] data n true w p).1 =
      (execute_write_queries_with_data o cpu st [q] data n false w' p).1 := by
  by_cases h1 : data.length < n
  · simp [execute_write_queries_with_data, h1]
  by_cases h2 : n = 0
  · simp [execute_write_queries_with_data, h1, h2]
  rcases hq : parallelQueriesLoop o (pyParams p) (array_split data n) [q]
    with ⟨r, evs⟩
  rcases hs : sequentialChunks o [q] (pyParams p) (array_split data n)
    with ⟨r2, ev2⟩
  have h3 := parallelQueriesLoop_single o q (pyParams p) (array_split data n)
  rw [hq, parallelWave_fst] at h3
  have h4 := seq_single o q (pyParams p) (array_split data n)
  rw [hs] at h4
  rcases hc : collectWave ((array_split data n).map
      (fun d => (_execute_write o q (some (fillnaRecords d)) (pyParams p)).1))
    with e | cs
  · rw [hc] at h3 h4
    simp only at h3 h4
    rw [h3] at hq
    rw [h4] at hs
    simp [execute_write_queries_with_data, h1, h2, hq, hs]
  · rw [hc] at h3 h4
    simp only at h3 h4
    rw [h3] at hq
    rw [h4] at hs
    simp [execute_write_queries_with_data, h1, h2, hq, hs]

/-- C1 counterexample: with two statements of different counter outcomes
over the same one-row dataset, `parallel=True` returns the empty
aggregate (the first statement's counters are discarded) while
`parallel=False` returns one created node — the execution mode changes
the returned totals. -/
theorem C1_mode_equivalence_counterexample :
    (execute_write_queries_with_data oC1 4 [] ["q1", "q2"] dfOne 1 true
      none []).1 = .ok [] ∧
    (execute_write_queries_with_data oC1 4 [] ["q1", "q2"] dfOne 1 false
      none []).1 = .ok [("nodes_created", 1)] ∧
    counterGet ([] : CounterMap) "nodes_created" ≠
      counterGet [("nodes_created", 1)] "nodes_created" := by
  refine ⟨rfl, rfl, by decide⟩

/-- C7 counterexample: neither value of the `parallel` configuration
flag — the only mode-selecting configuration of
`execute_write_queries_with_data` — selects a threaded strategy, so no
threaded mode is selectable. -/
theorem C7_threaded_mode_counterexample :
    selectStrategy false ≠ Strategy.threaded ∧
    selectStrategy true ≠ Strategy.threaded := by
  decide

/-- C7 as amended: every invocation of the data-ingestion entry point
executes under exactly one of two configuration-selected strategies,
sequential single-session (`parallel=False`) or process-parallel
(`parallel=True`); no threaded mode exists. -/
theorem C7_two_strategies_amended (o : Oracle) (cpu : Int) (st : CounterMap)
    (qs : List Query) (data : DataFrame) (n : Nat) (w : Option Int)
    (p : Params) (b : Bool) :
    (selectStrategy b = Strategy.sequential ∨
      selectStrategy b = Strategy.processParallel) ∧
    (selectStrategy b = Strategy.sequential →
      execute_write_queries_with_data o cpu st qs data n b w p =
        execute_write_queries_with_data o cpu st qs data n false w p) ∧
    (selectStrategy b = Strategy.processParallel →
      execute_write_queries_with_data o cpu st qs data n b w p =
        execute_write_queries_with_data o cpu st qs data n true w p) := by
  cases b
  · exact ⟨Or.inl rfl, fun _ => rfl,
      fun h => by simp [selectStrategy] at h⟩
  · exact ⟨Or.inr rfl, fun h => by simp [selectStrategy] at h,
      fun _ => rfl⟩

/-- C7 witness: the `parallel=True` configuration selects the
process-parallel strategy and runs the parallel pipeline. -/
theorem C7_two_strategies_amended_witness :
    (selectStrategy true = Strategy.sequential ∨
      selectStrategy true = Strategy.processParallel) ∧
    execute_write_queries_with_data oZero 1 [] ["q"] dfOne 1 true none [] =
      execute_write_queries_with_data oZero 1 [] ["q"] dfOne 1 true none [] :=
  ⟨(C7_two_strategies_amended oZero 1 [] ["q"] dfOne 1 none [] true).1,
   (C7_two_strategies_amended oZero 1 [] ["q"] dfOne 1 none [] true).2.2
     rfl⟩

/-- The records produced by the fillna normalization contain no missing
value. -/
theorem fillnaRecords_filled (rows : List Row) :
    (fillnaRecords rows).all (fun r => r.all Option.isSome) = true := by
  simp only [fillnaRecords, List.all_eq_true, List.mem_map]
  rintro r ⟨r0, _, rfl⟩
  simp only [List.all_eq_true, List.mem_map]
  rintro c ⟨c0, _, rfl⟩
  rfl

/-- A single write transaction only ever transmits fully normalized
batches when its `rows` argument is normalized. -/
theorem execute_write_events_filled (o : Oracle) (q : Query)
    (rows : Option (List Row)) (p : Params)
    (hfill : ∀ rs, rows = some rs →
      rs.all (fun r => r.all Option.isSome) = true) :
    (_execute_write o q rows p).2.all eventRowsFilled = true := by
  have hev : eventRowsFilled
      (Event.runWrite q (if pyTruthy rows then rows else none)) = true := by
    by_cases ht : pyTruthy rows = true
    · rw [if_pos ht]
      cases rows with
      | none => rfl
      | some rs => simpa [eventRowsFilled] using hfill rs rfl
    · rw [if_neg ht]
      rfl
  rcases ho : o q (if pyTruthy rows then rows else none) (pyParams p)
    with e | c <;>
    simp [_execute_write, ho, hev]

/-- The inner sequential loop transmits only normalized batches. -/
theorem runQueriesOnChunk_events_filled (o : Oracle) (params : Params)
    (rows : List Row)
    (hfill : rows.all (fun r => r.all Option.isSome) = true) :
    ∀ qs : List Query,
      ((runQueriesOnChunk o params rows qs).2).all eventRowsFilled = true := by
  intro qs
  induction qs with
  | nil => rfl
  | cons q qs ih =>
    have h1 := execute_write_events_filled o q (some rows) params
      (fun rs h => by cases h; exact hfill)
    rcases hx : _execute_write o q (some rows) params with ⟨r, ev⟩
    rw [hx] at h1
    rcases r with e | c
    · simpa [runQueriesOnChunk, hx] using h1
    · rcases hrec : runQueriesOnChunk o params rows qs with ⟨r2, evs⟩
      rw [hrec] at ih
      rcases r2 with e2 | cs2 <;>
        · simp only [runQueriesOnChunk, hx, hrec, List.all_append,
            Bool.and_eq_true]
          exact ⟨by simpa using h1, by simpa using ih⟩

/-- The sequential branch transmits only normalized batches. -/
theorem sequentialChunks_events_filled (o : Oracle) (qs : List Query)
    (params : Params) :
    ∀ chunks : List (List Row),
      ((sequentialChunks o qs params chunks).2).all eventRowsFilled = true := by
  intro chunks
  induction chunks with
  | nil => rfl
  | cons chunk rest ih =>
    have h1 := runQueriesOnChunk_events_filled o params (fillnaRecords chunk)
      (fillnaRecords_filled chunk) qs
    rcases hx : runQueriesOnChunk o params (fillnaRecords chunk) qs
      with ⟨r, ev⟩
    rw [hx] at h1
    rcases r with e | cs
    · simpa [sequentialChunks, hx] using h1
    · rcases hrec : sequentialChunks o qs params rest with ⟨r2, evs⟩
      rw [hrec] at ih
      rcases r2 with e2 | cs2 <;>
        · simp only [sequentialChunks, hx, hrec, List.all_append,
            Bool.and_eq_true]
          exact ⟨by simpa using h1, by simpa using ih⟩

/-- A parallel worker transmits only normalized batches when handed a
normalized batch. -/
theorem execute_write_parallel_events_filled (o : Oracle) (q : Query)
    (rows : Option (List Row)) (p : Params)
    (hfill : ∀ rs, rows = some rs →
      rs.all (fun r => r.all Option.isSome) = true) :
    (_execute_write_parallel o q rows p).2.all eventRowsFilled = true := by
  have h1 := execute_write_events_filled o q rows p hfill
  rcases hx : _execute_write o q rows p with ⟨r, ev⟩
  rw [hx] at h1
  simpa [_execute_write_parallel, hx, eventRowsFilled] using h1

/-- A whole parallel wave transmits only normalized batches. -/
theorem parallelWave_events_filled (o : Oracle) (q : Query) (params : Params) :
    ∀ chunks : List (List Row),
      ((parallelWave o q params chunks).2).all eventRowsFilled = true := by
  intro chunks
  induction chunks with
  | nil => rfl
  | cons chunk rest ih =>
    have h1 := execute_write_parallel_events_filled o q
      (some (fillnaRecords chunk)) params
      (fun rs h => by cases h; exact fillnaRecords_filled chunk)
    simp only [parallelWave, List.map_cons, List.flatten_cons,
      List.all_append, Bool.and_eq_true] at ih ⊢
    exact ⟨by simpa using h1, by simpa using ih⟩

/-- The whole parallel branch transmits only normalized batches. -/
theorem parallelQueriesLoop_events_filled (o : Oracle) (params : Params)
    (chunks : List (List Row)) :
    ∀ qs : List Query,
      ((parallelQueriesLoop o params chunks qs).2).all eventRowsFilled =
        true := by
  intro qs
  induction qs with
  | nil => rfl
  | cons q qs ih =>
    have h1 := parallelWave_events_filled o q params chunks
    rcases hw : parallelWave o q params chunks with ⟨outs, evs⟩
    rw [hw] at h1
    rcases hc : collectWave outs with e | cs
    · simpa [parallelQueriesLoop, hw, hc] using h1
    · rcases hrec : parallelQueriesLoop o params chunks qs with ⟨r2, evs2⟩
      rw [hrec] at ih
      rcases r2 with e2 | cs2
      · simp only [parallelQueriesLoop, hw, hc, hrec, List.all_append,
          Bool.and_eq_true]
        exact ⟨by simpa using h1, by simpa using ih⟩
      · rcases cs2 with _ | results <;>
          · simp only [parallelQueriesLoop, hw, hc, hrec, List.all_append,
              Bool.and_eq_true]
            exact ⟨by simpa using h1, by simpa using ih⟩

/-- C9: every batch transmitted to a write transaction by
`execute_write_queries_with_data` — in either execution mode — has had
every missing cell replaced by the empty string before transmission. -/
theorem C9_fillna_normalization (o : Oracle) (cpu : Int) (st : CounterMap)
    (qs : List Query) (data : DataFrame) (n : Nat) (par : Bool)
    (w : Option Int) (p : Params) :
    ((execute_write_queries_with_data o cpu st qs data n par w p).2.2).all
      eventRowsFilled = true := by
  by_cases h1 : data.length < n
  · simp [execute_write_queries_with_data, h1]
  by_cases h2 : n = 0
  · simp [execute_write_queries_with_data, h1, h2]
  cases par with
  | false =>
    have h3 := sequentialChunks_events_filled o qs (pyParams p)
      (array_split data n)
    rcases hs : sequentialChunks o qs (pyParams p) (array_split data n)
      with ⟨r, evs⟩
    rw [hs] at h3
    rcases r with e | results <;>
      simp [execute_write_queries_with_data, h1, h2, hs, eventRowsFilled] <;>
      simpa using h3
  | true =>
    have h3 := parallelQueriesLoop_events_filled o (pyParams p)
      (array_split data n) qs
    rcases hq : parallelQueriesLoop o (pyParams p) (array_split data n) qs
      with ⟨r, evs⟩
    rw [hq] at h3
    rcases r with e | cs
    · simp [execute_write_queries_with_data, h1, h2, hq]
      simpa using h3
    · rcases cs with _ | results <;>
        simp [execute_write_queries_with_data, h1, h2, hq] <;>
        simpa using h3

/-- One unfolding step of the parallel per-query loop. -/
theorem parallelQueriesLoop_cons (o : Oracle) (params : Params)
    (chunks : List (List Row)) (q : Query) (qs : List Query) :
    parallelQueriesLoop o params chunks (q :: qs) =
      match collectWave (parallelWave o q params chunks).1 with
      | .error e => (.error e, (parallelWave o q params chunks).2)
      | .ok cs =>
        match (parallelQueriesLoop o params chunks qs).1 with
        | .error e =>
          (.error e, (parallelWave o q params chunks).2 ++
            (parallelQueriesLoop o params chunks qs).2)
        | .ok none =>
          (.ok (some cs), (parallelWave o q params chunks).2 ++
            (parallelQueriesLoop o params chunks qs).2)
        | .ok (some cs2) =>
          (.ok (some cs2), (parallelWave o q params chunks).2 ++
            (parallelQueriesLoop o params chunks qs).2) := rfl

/-- With at least one query, the parallel per-query loop always assigns
`results`. -/
theorem parallelQueriesLoop_ne_ok_none (o : Oracle) (params : Params)
    (chunks : List (List Row)) (q : Query) (qs : List Query) :
    (parallelQueriesLoop o params chunks (q :: qs)).1 ≠ .ok none := by
  rcases hw : parallelWave o q params chunks with ⟨outs, evs⟩
  rcases hc : collectWave outs with e | cs
  · simp [parallelQueriesLoop, hw, hc]
  · rcases hr : parallelQueriesLoop o params chunks qs with ⟨r2, evs2⟩
    rcases r2 with e2 | cs2
    · simp [parallelQueriesLoop, hw, hc, hr]
    · rcases cs2 with _ | results <;> simp [parallelQueriesLoop, hw, hc, hr]

/-- When the parallel per-query loop completes, its value is exactly the
collected wave of the last query: every earlier wave's results were
overwritten by the reassignment of `results`. -/
theorem parallelQueriesLoop_last (o : Oracle) (params : Params)
    (chunks : List (List Row)) :
    ∀ (qs : List Query) (qlast : Query) (cs : List CounterMap),
      qs.getLast? = some qlast →
      (parallelQueriesLoop o params chunks qs).1 = .ok (some cs) →
      (parallelQueriesLoop o params chunks [qlast]).1 = .ok (some cs) := by
  intro qs
  induction qs with
  | nil => intro qlast cs h; simp at h
  | cons q qs ih =>
    intro qlast cs hlast hok
    cases qs with
    | nil =>
      have hq : q = qlast := by simpa using hlast
      subst hq
      exact hok
    | cons q' qs' =>
      have hlast' : (q' :: qs').getLast? = some qlast := by
        simpa [List.getLast?_cons_cons] using hlast
      rw [parallelQueriesLoop_cons] at hok
      rcases hc : collectWave (parallelWave o q params chunks).1 with e | cs1
      · rw [hc] at hok
        simp at hok
      · rw [hc] at hok
        rcases hr : (parallelQueriesLoop o params chunks (q' :: qs')).1
          with e2 | cs2
        · rw [hr] at hok
          simp at hok
        · rcases cs2 with _ | results
          · exact absurd hr
              (parallelQueriesLoop_ne_ok_none o params chunks q' qs')
          · rw [hr] at hok
            have hres : results = cs := by simpa using hok
            subst hres
            exact ih qlast results hlast' hr

/-- C10: in parallel mode with two or more queries, the returned
aggregate is computed only from the last query's per-batch counters —
the `results` binding is reassigned on every iteration of the per-query
loop, so a completed call returns exactly what the same call restricted
to the last query alone would return. -/
theorem C10_last_query_only (o : Oracle) (cpu : Int) (st : CounterMap)
    (qs : List Query) (data : DataFrame) (n : Nat) (w : Option Int)
    (p : Params) (qlast : Query) (out : CounterMap)
    (hlen : 2 ≤ qs.length) (hlast : qs.getLast? = some qlast)
    (hok : (execute_write_queries_with_data o cpu st qs data n true w p).1 =
      .ok out) :
    (execute_write_queries_with_data o cpu st [qlast] data n true w p).1 =
      .ok out := by
  by_cases h1 : data.length < n
  · simp [execute_write_queries_with_data, h1] at hok
  by_cases h2 : n = 0
  · simp [execute_write_queries_with_data, h1, h2] at hok
  rcases hr : parallelQueriesLoop o (pyParams p) (array_split data n) qs
    with ⟨r, evs⟩
  rcases r with e | cs
  · simp [execute_write_queries_with_data, h1, h2, hr] at hok
  rcases cs with _ | results
  · simp [execute_write_queries_with_data, h1, h2, hr] at hok
  have hout : results.foldl mergeCounters st = out := by
    simpa [execute_write_queries_with_data, h1, h2, hr] using hok
  have h5 := parallelQueriesLoop_last o (pyParams p) (array_split data n) qs
    qlast results hlast (by rw [hr])
  rcases h7 : parallelQueriesLoop o (pyParams p) (array_split data n) [qlast]
    with ⟨r2, evs2⟩
  rw [h7] at h5
  simp only at h5
  rw [h5] at h7
  simp [execute_write_queries_with_data, h1, h2, h7, hout]

/-- C10 witness: under an oracle where the second of two queries creates
two relationships, the two-query parallel call returns exactly the
single-last-query call's aggregate. -/
theorem C10_last_query_only_witness :
    (execute_write_queries_with_data oC10 4 [] ["q2"] dfOne 1 true
      none []).1 = .ok [("relationships_created", 2)] :=
  C10_last_query_only oC10 4 [] ["q1", "q2"] dfOne 1 none [] "q2"
    [("relationships_created", 2)] (by decide) (by decide) rfl

/-- A successful inner sequential loop means every query's transaction on
that batch succeeded. -/
theorem runQueriesOnChunk_ok (o : Oracle) (params : Params) (rows : List Row) :
    ∀ (qs : List Query) (cs : List CounterMap),
      (runQueriesOnChunk o params rows qs).1 = .ok cs →
      ∀ q ∈ qs, isOkB (_execute_write o q (some rows) params).1 = true := by
  intro qs
  induction qs with
  | nil => intro cs _ q hq; simp at hq
  | cons q qs ih =>
    intro cs hok q' hq'
    rcases hx : _execute_write o q (some rows) params with ⟨r, ev⟩
    rcases r with e | c
    · simp [runQueriesOnChunk, hx] at hok
    · rcases hrec : runQueriesOnChunk o params rows qs with ⟨r2, evs⟩
      rcases r2 with e2 | cs2
      · simp [runQueriesOnChunk, hx, hrec] at hok
      · rcases List.mem_cons.mp hq' with h | h
        · subst h
          rw [hx]
          rfl
        · exact ih cs2 (by rw [hrec]) q' h

/-- A successful sequential branch means every query succeeded on every
batch. -/
theorem sequentialChunks_ok (o : Oracle) (qs : List Query) (params : Params) :
    ∀ (chunks : List (List Row)) (cs : List CounterMap),
      (sequentialChunks o qs params chunks).1 = .ok cs →
      ∀ d ∈ chunks, ∀ q ∈ qs,
        isOkB (_execute_write o q (some (fillnaRecords d)) params).1 = true := by
  intro chunks
  induction chunks with
  | nil => intro cs _ d hd; simp at hd
  | cons chunk rest ih =>
    intro cs hok d hd q hq
    rcases hx : runQueriesOnChunk o params (fillnaRecords chunk) qs
      with ⟨r, ev⟩
    rcases r with e | cs1
    · simp [sequentialChunks, hx] at hok
    · rcases hrec : sequentialChunks o qs params rest with ⟨r2, evs⟩
      rcases r2 with e2 | cs2
      · simp [sequentialChunks, hx, hrec] at hok
      · rcases List.mem_cons.mp hd with h | h
        · subst h
          exact runQueriesOnChunk_ok o params (fillnaRecords d) qs cs1
            (by rw [hx]) q hq
        · exact ih cs2 (by rw [hrec]) d h q hq

/-- A successfully collected wave contains only successful outcomes. -/
theorem collectWave_ok (outs : List (Except IngestError CounterMap)) :
    ∀ cs, collectWave outs = .ok cs → ∀ x ∈ outs, isOkB x = true := by
  induction outs with
  | nil => intro cs _ x hx; simp at hx
  | cons x0 outs ih =>
    intro cs hok x hx
    rcases x0 with e | c
    · simp [collectWave] at hok
    · rcases hc : collectWave outs with e2 | cs2
      · simp [collectWave, hc, Except.map] at hok
      · rcases List.mem_cons.mp hx with h | h
        · subst h; rfl
        · exact ih cs2 hc x h

/-- A completed parallel loop means every query's worker succeeded on
every batch. -/
theorem parallelQueriesLoop_ok (o : Oracle) (params : Params)
    (chunks : List (List Row)) :
    ∀ (qs : List Query) (r : Option (List CounterMap)),
      (parallelQueriesLoop o params chunks qs).1 = .ok r →
      ∀ q ∈ qs, ∀ d ∈ chunks,
        isOkB (_execute_write o q (some (fillnaRecords d)) params).1 = true := by
  intro qs
  induction qs with
  | nil => intro r _ q hq; simp at hq
  | cons q0 qs ih =>
    intro r hok q hq d hd
    rw [parallelQueriesLoop_cons] at hok
    rcases hc : collectWave (parallelWave o q0 params chunks).1 with e | cs1
    · rw [hc] at hok
      simp at hok
    · rw [hc] at hok
      rcases List.mem_cons.mp hq with h | h
      · subst h
        have hmem : (_execute_write o q (some (fillnaRecords d)) params).1 ∈
            (parallelWave o q params chunks).1 := by
          rw [parallelWave_fst]
          exact List.mem_map_of_mem _ hd
        exact collectWave_ok _ cs1 hc _ hmem
      · rcases hr : (parallelQueriesLoop o params chunks qs).1 with e2 | cs2
        · rw [hr] at hok
          simp at hok
        · exact ih cs2 hr q h d hd

/-- A failing inner sequential loop names the failing query. -/
theorem runQueriesOnChunk_error (o : Oracle) (params : Params)
    (rows : List Row) :
    ∀ (qs : List Query) (err : IngestError),
      (runQueriesOnChunk o params rows qs).1 = .error err →
      ∃ q ∈ qs, (_execute_write o q (some rows) params).1 = .error err := by
  intro qs
  induction qs with
  | nil => intro err h; simp [runQueriesOnChunk] at h
  | cons q qs ih =>
    intro err hok
    rcases hx : _execute_write o q (some rows) params with ⟨r, ev⟩
    rcases r with e | c
    · have he : e = err := by simpa [runQueriesOnChunk, hx] using hok
      exact ⟨q, List.mem_cons_self q qs, by rw [hx, he]⟩
    · rcases hrec : runQueriesOnChunk o params rows qs with ⟨r2, evs⟩
      rcases r2 with e2 | cs2
      · have he : e2 = err := by
          simpa [runQueriesOnChunk, hx, hrec] using hok
        obtain ⟨q', hq', hx'⟩ := ih e2 (by rw [hrec])
        exact ⟨q', List.mem_cons_of_mem _ hq', by rw [hx', he]⟩
      · simp [runQueriesOnChunk, hx, hrec] at hok

/-- A failing sequential branch names the failing batch and query. -/
theorem sequentialChunks_error (o : Oracle) (qs : List Query)
    (params : Params) :
    ∀ (chunks : List (List Row)) (err : IngestError),
      (sequentialChunks o qs params chunks).1 = .error err →
      ∃ d ∈ chunks, ∃ q ∈ qs,
        (_execute_write o q (some (fillnaRecords d)) params).1 =
          .error err := by
  intro chunks
  induction chunks with
  | nil => intro err h; simp [sequentialChunks] at h
  | cons chunk rest ih =>
    intro err hok
    rcases hx : runQueriesOnChunk o params (fillnaRecords chunk) qs
      with ⟨r, ev⟩
    rcases r with e | cs1
    · have he : e = err := by simpa [sequentialChunks, hx] using hok
      obtain ⟨q, hq, hxq⟩ :=
        runQueriesOnChunk_error o params (fillnaRecords chunk) qs e
          (by rw [hx])
      exact ⟨chunk, List.mem_cons_self chunk rest, q, hq, by rw [hxq, he]⟩
    · rcases hrec : sequentialChunks o qs params rest with ⟨r2, evs⟩
      rcases r2 with e2 | cs2
      · have he : e2 = err := by
          simpa [sequentialChunks, hx, hrec] using hok
        obtain ⟨d, hd, q, hq, hxq⟩ := ih e2 (by rw [hrec])
        exact ⟨d, List.mem_cons_of_mem _ hd, q, hq, by rw [hxq, he]⟩
      · simp [sequentialChunks, hx, hrec] at hok

/-- A failing wave collection names a failing worker outcome. -/
theorem collectWave_error (outs : List (Except IngestError CounterMap)) :
    ∀ err, collectWave outs = .error err → ∃ x ∈ outs, x = .error err := by
  induction outs with
  | nil => intro err h; simp [collectWave] at h
  | cons x0 outs ih =>
    intro err h
    rcases x0 with e | c
    · have he : e = err := by simpa [collectWave] using h
      subst he
      exact ⟨.error e, List.mem_cons_self _ _, rfl⟩
    · rcases hc : collectWave outs with e2 | cs2
      · have he : e2 = err := by simpa [collectWave, hc, Except.map] using h
        obtain ⟨x, hx, hxe⟩ := ih e2 hc
        exact ⟨x, List.mem_cons_of_mem _ hx, by rw [hxe, he]⟩
      · simp [collectWave, hc, Except.map] at h

/-- A failing parallel loop names the failing query and batch. -/
theorem parallelQueriesLoop_error (o : Oracle) (params : Params)
    (chunks : List (List Row)) :
    ∀ (qs : List Query) (err : IngestError),
      (parallelQueriesLoop o params chunks qs).1 = .error err →
      ∃ q ∈ qs, ∃ d ∈ chunks,
        (_execute_write o q (some (fillnaRecords d)) params).1 =
          .error err := by
  intro qs
  induction qs with
  | nil => intro err h; simp [parallelQueriesLoop] at h
  | cons q0 qs ih =>
    intro err h
    rw [parallelQueriesLoop_cons] at h
    rcases hc : collectWave (parallelWave o q0 params chunks).1 with e | cs1
    · rw [hc] at h
      have he : e = err := by simpa using h
      obtain ⟨x, hx, hxe⟩ := collectWave_error _ e hc
      rw [parallelWave_fst] at hx
      obtain ⟨d, hd, hxd⟩ := List.mem_map.mp hx
      exact ⟨q0, List.mem_cons_self _ _, d, hd, by rw [hxd, hxe, he]⟩
    · rw [hc] at h
      rcases hr : (parallelQueriesLoop o params chunks qs).1 with e2 | cs2
      · rw [hr] at h
        have he : e2 = err := by simpa using h
        obtain ⟨q', hq', d, hd, hx⟩ := ih e2 hr
        exact ⟨q', List.mem_cons_of_mem _ hq', d, hd, by rw [hx, he]⟩
      · rcases cs2 with _ | results <;>
          · rw [hr] at h
            simp at h

/-- Transaction counting distributes over trace concatenation. -/
theorem countRunWrite_append (a b : List Event) :
    countRunWrite (a ++ b) = countRunWrite a + countRunWrite b := by
  simp [countRunWrite, List.filter_append]

/-- One call to `_execute_write` runs exactly one transaction. -/
theorem countRunWrite_execute_write (o : Oracle) (q : Query)
    (rows : Option (List Row)) (p : Params) :
    countRunWrite (_execute_write o q rows p).2 = 1 := by
  rcases ho : o q (if pyTruthy rows then rows else none) (pyParams p)
    with e | c <;>
    simp [_execute_write, ho, countRunWrite, isRunWrite]

/-- One parallel worker runs exactly one transaction. -/
theorem countRunWrite_execute_write_parallel (o : Oracle) (q : Query)
    (rows : Option (List Row)) (p : Params) :
    countRunWrite (_execute_write_parallel o q rows p).2 = 1 := by
  have h := countRunWrite_execute_write o q rows p
  rcases hx : _execute_write o q rows p with ⟨r, ev⟩
  rw [hx] at h
  simp only [_execute_write_parallel, hx]
  simpa [countRunWrite, List.filter_cons, isRunWrite] using h

/-- The inner sequential loop runs at most one transaction per query. -/
theorem runQueriesOnChunk_count (o : Oracle) (params : Params)
    (rows : List Row) :
    ∀ qs : List Query,
      countRunWrite (runQueriesOnChunk o params rows qs).2 ≤ qs.length := by
  intro qs
  induction qs with
  | nil => simp [runQueriesOnChunk, countRunWrite]
  | cons q qs ih =>
    rcases hx : _execute_write o q (some rows) params with ⟨r, ev⟩
    have hev : countRunWrite ev = 1 := by
      have h := countRunWrite_execute_write o q (some rows) params
      rw [hx] at h
      exact h
    rcases r with e | c
    · simp only [runQueriesOnChunk, hx, List.length_cons]
      omega
    · rcases hrec : runQueriesOnChunk o params rows qs with ⟨r2, evs⟩
      have hrec2 : countRunWrite evs ≤ qs.length := by
        have h := ih
        rw [hrec] at h
        exact h
      rcases r2 with e2 | cs2 <;>
        · simp only [runQueriesOnChunk, hx, hrec, List.length_cons]
          rw [countRunWrite_append]
          omega

/-- The sequential branch runs at most one transaction per batch-query
pair. -/
theorem sequentialChunks_count (o : Oracle) (qs : List Query)
    (params : Params) :
    ∀ chunks : List (List Row),
      countRunWrite (sequentialChunks o qs params chunks).2 ≤
        chunks.length * qs.length := by
  intro chunks
  induction chunks with
  | nil => simp [sequentialChunks, countRunWrite]
  | cons chunk rest ih =>
    rcases hx : runQueriesOnChunk o params (fillnaRecords chunk) qs
      with ⟨r, ev⟩
    have hev : countRunWrite ev ≤ qs.length := by
      have h := runQueriesOnChunk_count o params (fillnaRecords chunk) qs
      rw [hx] at h
      exact h
    rcases r with e | cs1
    · simp only [sequentialChunks, hx, List.length_cons, Nat.succ_mul]
      omega
    · rcases hrec : sequentialChunks o qs params rest with ⟨r2, evs⟩
      have hrec2 : countRunWrite evs ≤ rest.length * qs.length := by
        have h := ih
        rw [hrec] at h
        exact h
      rcases r2 with e2 | cs2 <;>
        · simp only [sequentialChunks, hx, hrec, List.length_cons,
            Nat.succ_mul]
          rw [countRunWrite_append]
          omega

/-- One wave runs exactly one transaction per batch. -/
theorem parallelWave_count (o : Oracle) (q : Query) (params : Params) :
    ∀ chunks : List (List Row),
      countRunWrite (parallelWave o q params chunks).2 = chunks.length := by
  intro chunks
  induction chunks with
  | nil => rfl
  | cons chunk rest ih =>
    simp only [parallelWave, List.map_cons, List.flatten_cons,
      List.length_cons] at ih ⊢
    rw [countRunWrite_append, countRunWrite_execute_write_parallel, ih]
    omega

/-- The parallel loop runs at most one transaction per query-batch
pair. -/
theorem parallelQueriesLoop_count (o : Oracle) (params : Params)
    (chunks : List (List Row)) :
    ∀ qs : List Query,
      countRunWrite (parallelQueriesLoop o params chunks qs).2 ≤
        qs.length * chunks.length := by
  intro qs
  induction qs with
  | nil => simp [parallelQueriesLoop, countRunWrite]
  | cons q0 qs ih =>
    have hw := parallelWave_count o q0 params chunks
    rcases hc : collectWave (parallelWave o q0 params chunks).1 with e | cs1
    · simp only [parallelQueriesLoop_cons, hc, List.length_cons,
        Nat.succ_mul]
      omega
    · rcases hr : (parallelQueriesLoop o params chunks qs).1 with e2 | cs2
      · simp only [parallelQueriesLoop_cons, hc, hr, countRunWrite_append,
          List.length_cons, Nat.succ_mul]
        omega
      · rcases cs2 with _ | results <;>
          · simp only [parallelQueriesLoop_cons, hc, hr,
              countRunWrite_append, List.length_cons, Nat.succ_mul]
            omega

/-- A run's trace never opens a transaction before the partition check
has passed (C2 covers the trace-empty error case); this lemma counts the
two non-transaction session events of the sequential branch. -/
theorem countRunWrite_session_events (evs : List Event) :
    countRunWrite (Event.openDriver :: Event.openSession :: evs) =
      countRunWrite evs := by
  simp [countRunWrite, List.filter_cons, isRunWrite]

/-- C8: for every invocation of `execute_write_queries_with_data`, a
normal return implies every planned batch transaction succeeded (no
aggregate is ever returned past a failing batch); every database error
the call raises — a service-unavailable or client error — is one that
some batch's transaction raised, re-raised with the same kind; and the
trace never holds more transactions than the query-batch plan, so
nothing is retried internally. -/
theorem C8_error_propagation (o : Oracle) (cpu : Int) (st : CounterMap)
    (qs : List Query) (data : DataFrame) (n : Nat) (par : Bool)
    (w : Option Int) (p : Params) :
    (∀ out,
      (execute_write_queries_with_data o cpu st qs data n par w p).1 =
        .ok out →
      ∀ q ∈ qs, ∀ d ∈ array_split data n,
        isOkB (_execute_write o q (some (fillnaRecords d))
          (pyParams p)).1 = true) ∧
    (∀ e : DbError,
      (execute_write_queries_with_data o cpu st qs data n par w p).1 =
        .error (.dbError e) →
      ∃ q ∈ qs, ∃ d ∈ array_split data n,
        (_execute_write o q (some (fillnaRecords d)) (pyParams p)).1 =
          .error (.dbError e)) ∧
    countRunWrite
        (execute_write_queries_with_data o cpu st qs data n par w p).2.2 ≤
      qs.length * (array_split data n).length := by
  by_cases h1 : data.length < n
  · have hE : execute_write_queries_with_data o cpu st qs data n par w p =
        (.error (.valueError
          "The batch size cannot be greater than the number of rows in the data."),
         st, []) := by
      simp [execute_write_queries_with_data, h1]
    refine ⟨?_, ?_, ?_⟩
    · intro out hok; rw [hE] at hok; simp at hok
    · intro e he; rw [hE] at he; simp at he
    · rw [hE]
      show countRunWrite [] ≤ _
      simp [countRunWrite]
  by_cases h2 : n = 0
  · have hE : execute_write_queries_with_data o cpu st qs data n par w p =
        (.error (.valueError "number sections must be larger than 0."),
         st, []) := by
      simp [execute_write_queries_with_data, h1, h2]
    refine ⟨?_, ?_, ?_⟩
    · intro out hok; rw [hE] at hok; simp at hok
    · intro e he; rw [hE] at he; simp at he
    · rw [hE]
      show countRunWrite [] ≤ _
      simp [countRunWrite]
  cases par with
  | false =>
    rcases hs : sequentialChunks o qs (pyParams p) (array_split data n)
      with ⟨r, evs⟩
    have hcount := sequentialChunks_count o qs (pyParams p)
      (array_split data n)
    rw [hs] at hcount
    rcases r with e | results
    · have hE : execute_write_queries_with_data o cpu st qs data n false w p =
          (.error e, st, Event.openDriver :: Event.openSession :: evs) := by
        simp [execute_write_queries_with_data, h1, h2, hs]
      refine ⟨?_, ?_, ?_⟩
      · intro out hok; rw [hE] at hok; simp at hok
      · intro e' he
        rw [hE] at he
        simp only at he
        have he' : e = .dbError e' := by simpa using he
        obtain ⟨d, hd, q, hq, hx⟩ := sequentialChunks_error o qs (pyParams p)
          (array_split data n) e (by rw [hs])
        exact ⟨q, hq, d, hd, by rw [hx, he']⟩
      · rw [hE]
        show countRunWrite (Event.openDriver :: Event.openSession :: evs) ≤ _
        rw [countRunWrite_session_events, Nat.mul_comm]
        exact hcount
    · have hE : execute_write_queries_with_data o cpu st qs data n false w p =
          (.ok (results.foldl mergeCounters st), [],
           Event.openDriver :: Event.openSession :: evs) := by
        simp [execute_write_queries_with_data, h1, h2, hs]
      refine ⟨?_, ?_, ?_⟩
      · intro out _ q hq d hd
        exact sequentialChunks_ok o qs (pyParams p) (array_split data n)
          results (by rw [hs]) d hd q hq
      · intro e' he; rw [hE] at he; simp at he
      · rw [hE]
        show countRunWrite (Event.openDriver :: Event.openSession :: evs) ≤ _
        rw [countRunWrite_session_events, Nat.mul_comm]
        exact hcount
  | true =>
    rcases hq : parallelQueriesLoop o (pyParams p) (array_split data n) qs
      with ⟨r, evs⟩
    have hcount := parallelQueriesLoop_count o (pyParams p)
      (array_split data n) qs
    rw [hq] at hcount
    rcases r with e | cs
    · have hE : execute_write_queries_with_data o cpu st qs data n true w p =
          (.error e, st, evs) := by
        simp [execute_write_queries_with_data, h1, h2, hq]
      refine ⟨?_, ?_, ?_⟩
      · intro out hok; rw [hE] at hok; simp at hok
      · intro e' he
        rw [hE] at he
        simp only at he
        have he' : e = .dbError e' := by simpa using he
        obtain ⟨q, hqm, d, hd, hx⟩ := parallelQueriesLoop_error o (pyParams p)
          (array_split data n) qs e (by rw [hq])
        exact ⟨q, hqm, d, hd, by rw [hx, he']⟩
      · rw [hE]
        show countRunWrite evs ≤ _
        exact hcount
    · rcases cs with _ | results
      · have hE :
            execute_write_queries_with_data o cpu st qs data n true w p =
            (.error .unboundLocalError, st, evs) := by
          simp [execute_write_queries_with_data, h1, h2, hq]
        refine ⟨?_, ?_, ?_⟩
        · intro out hok; rw [hE] at hok; simp at hok
        · intro e' he; rw [hE] at he; simp at he
        · rw [hE]
          show countRunWrite evs ≤ _
          exact hcount
      · have hE :
            execute_write_queries_with_data o cpu st qs data n true w p =
            (.ok (results.foldl mergeCounters st), [], evs) := by
          simp [execute_write_queries_with_data, h1, h2, hq]
        refine ⟨?_, ?_, ?_⟩
        · intro out _ q hqm d hd
          exact parallelQueriesLoop_ok o (pyParams p) (array_split data n)
            qs (some results) (by rw [hq]) q hqm d hd
        · intro e' he; rw [hE] at he; simp at he
        · rw [hE]
          show countRunWrite evs ≤ _
          exact hcount

/-- C8 witness: under an always-succeeding oracle the one-batch plan is
reported successful; under an oracle whose every transaction raises a
`ClientError`, the call raises a `ClientError` traced to a concrete
batch transaction. -/
theorem C8_error_propagation_witness :
    isOkB (_execute_write oZero "q" (some (fillnaRecords dfOne))
      (pyParams [])).1 = true ∧
    (∃ q ∈ ["q"], ∃ d ∈ array_split dfOne 1,
      (_execute_write oFail q (some (fillnaRecords d)) (pyParams [])).1 =
        .error (.dbError .clientError)) :=
  ⟨(C8_error_propagation oZero 1 [] ["q"] dfOne 1 false none []).1
      [] rfl "q" (by decide) dfOne (by decide),
   (C8_error_propagation oFail 1 [] ["q"] dfOne 1 false none []).2.1
      .clientError rfl⟩
